import Mathlib

/-!
# Verification of the tennis Elo rating engine

Shallow embedding of `src/ratings/elo_system.py` (`TennisEloSystem`):
Python floats are modelled as real numbers, the `defaultdict` rating store as a
function `String → Option Entry` (with explicit lazy materialization, matching
`defaultdict.__getitem__`), the inner per-player `dict` as a six-field structure
with string-keyed lookup (so that a `KeyError` on an unknown surface string is
an `Except.error`, while the always-present keys `overall` and `matches_played`
are reachable as "surfaces", exactly as in the Python dict), and
`pandas.sort_values('date')` as a sort of the record list by date.
-/

namespace TennisElo

/-- The per-player dict produced by the `defaultdict` factory in `__init__`:
`{'overall': r, 'Hard': r, 'Clay': r, 'Grass': r, 'Carpet': r, 'matches_played': 0}`.
`matches_played` is an int in Python but participates in the same dict as the
float ratings, so all six values are modelled in ℝ. -/
structure Entry where
  overall : ℝ
  hard : ℝ
  clay : ℝ
  grass : ℝ
  carpet : ℝ
  matches_played : ℝ

/-- The keys of the per-player dict, in insertion order. -/
def entryKeys : List String :=
  ["overall", "Hard", "Clay", "Grass", "Carpet", "matches_played"]

/-- The recognized surface set from the spec's data model. -/
def recognizedSurfaces : List String := ["Hard", "Clay", "Grass", "Carpet"]

/-- Dict read `entry[k]`: `some` for the six present keys, `none` = `KeyError`. -/
def Entry.dimGet (e : Entry) (k : String) : Option ℝ :=
  if k = "overall" then some e.overall
  else if k = "Hard" then some e.hard
  else if k = "Clay" then some e.clay
  else if k = "Grass" then some e.grass
  else if k = "Carpet" then some e.carpet
  else if k = "matches_played" then some e.matches_played
  else none

/-- Dict write `entry[k] = v` for a key already present.  The engine only
writes a key it has just read successfully (`+=` reads first), so the
fall-through branch for an unknown key is never reached from `update_ratings`. -/
def Entry.dimSet (e : Entry) (k : String) (v : ℝ) : Entry :=
  if k = "overall" then { e with overall := v }
  else if k = "Hard" then { e with hard := v }
  else if k = "Clay" then { e with clay := v }
  else if k = "Grass" then { e with grass := v }
  else if k = "Carpet" then { e with carpet := v }
  else if k = "matches_played" then { e with matches_played := v }
  else e

/-- Total read used in statements: the dict value, defaulting to 0 when the
key is absent (only used under a hypothesis that makes the key present). -/
def Entry.dimGetD (e : Entry) (k : String) : ℝ := (e.dimGet k).getD 0

/-- The fresh entry made by the `defaultdict` factory for `initial_rating = r`. -/
def defaultEntry (r : ℝ) : Entry :=
  { overall := r, hard := r, clay := r, grass := r, carpet := r, matches_played := 0 }

/-- One element of `self.match_ratings`: the dict appended per valid match. -/
structure MatchSnapshot where
  match_idx : ℕ
  date : ℕ
  surface : String
  winner_id : String
  loser_id : String
  winner_elo_overall : ℝ
  loser_elo_overall : ℝ
  winner_elo_surface : ℝ
  loser_elo_surface : ℝ

/-- The state of a `TennisEloSystem` instance. -/
structure TennisEloSystem where
  initial_rating : ℝ
  k_factor : ℝ
  ratings : String → Option Entry
  match_ratings : List MatchSnapshot

/-- `TennisEloSystem(initial_rating, k_factor)`: empty store, empty snapshot log. -/
def mkSystem (initial_rating k_factor : ℝ) : TennisEloSystem :=
  { initial_rating := initial_rating, k_factor := k_factor,
    ratings := fun _ => none, match_ratings := [] }

/-- `self.ratings[pid]` on the `defaultdict`: returns the entry and the
(possibly extended) system — an unseen player is materialized with the
default entry. -/
def TennisEloSystem.access (s : TennisEloSystem) (pid : String) :
    Entry × TennisEloSystem :=
  match s.ratings pid with
  | some e => (e, s)
  | none =>
    let e := defaultEntry s.initial_rating
    (e, { s with ratings := fun q => if q = pid then some e else s.ratings q })

/-- The value `self.ratings[pid]` evaluates to (ignoring the materialization
side effect): the stored entry, or the default entry for an unseen player. -/
def TennisEloSystem.peek (s : TennisEloSystem) (pid : String) : Entry :=
  (s.access pid).1

/-- `self.ratings[pid][k] += delta`: materialize `pid` if needed, read key `k`,
add, write back.  A missing key `k` would be a `KeyError` in Python; the
engine only calls this with `k` equal to `overall`, `matches_played`, or a
surface whose read already succeeded, so the `none` branch is unreachable
from `update_ratings` and is modelled as a no-op write. -/
def TennisEloSystem.addToDim (s : TennisEloSystem) (pid k : String) (delta : ℝ) :
    TennisEloSystem :=
  let a := s.access pid
  match a.1.dimGet k with
  | none => a.2
  | some v =>
    let e := a.1.dimSet k (v + delta)
    { a.2 with ratings := fun q => if q = pid then some e else a.2.ratings q }

/-- `expected_probability(rating_a, rating_b) = 1 / (1 + 10 ** ((rating_b - rating_a) / 400))`. -/
noncomputable def expected_probability (rating_a rating_b : ℝ) : ℝ :=
  1 / (1 + (10 : ℝ) ^ ((rating_b - rating_a) / 400))

/-- `TennisEloSystem.update_ratings(winner_id, loser_id, surface, date, match_idx)`.
Reads the four pre-match ratings (materializing both players), appends the
snapshot, applies the overall delta, the surface delta, and the match-count
increments, in the source's statement order.  A surface string that is not a
key of the per-player dict raises `KeyError` at the first surface read,
before the snapshot is appended — modelled as `Except.error surface`. -/
noncomputable def TennisEloSystem.update_ratings (s : TennisEloSystem)
    (winner_id loser_id surface : String) (date : ℕ) (match_idx : ℕ) :
    Except String TennisEloSystem :=
  let a1 := s.access winner_id
  let winner_overall := a1.1.overall
  let a2 := a1.2.access loser_id
  let loser_overall := a2.1.overall
  let a3 := a2.2.access winner_id
  match a3.1.dimGet surface with
  | none => .error surface
  | some winner_surface =>
    let a4 := a3.2.access loser_id
    match a4.1.dimGet surface with
    | none => .error surface
    | some loser_surface =>
      let s4 := a4.2
      let snap : MatchSnapshot :=
        { match_idx := match_idx, date := date, surface := surface,
          winner_id := winner_id, loser_id := loser_id,
          winner_elo_overall := winner_overall,
          loser_elo_overall := loser_overall,
          winner_elo_surface := winner_surface,
          loser_elo_surface := loser_surface }
      let s5 := { s4 with match_ratings := s4.match_ratings ++ [snap] }
      let expected_overall := expected_probability winner_overall loser_overall
      let change_overall := s5.k_factor * (1 - expected_overall)
      let s6 := s5.addToDim winner_id "overall" change_overall
      let s7 := s6.addToDim loser_id "overall" (-change_overall)
      let expected_surface := expected_probability winner_surface loser_surface
      let change_surface := s7.k_factor * (1 - expected_surface)
      let s8 := s7.addToDim winner_id surface change_surface
      let s9 := s8.addToDim loser_id surface (-change_surface)
      let s10 := s9.addToDim winner_id "matches_played" 1
      let s11 := s10.addToDim loser_id "matches_played" 1
      .ok s11

/-- One row of the input match table (`winner_id`, `p1_id`, `p2_id`,
`surface`, `date`); dates are modelled as naturals ordered chronologically. -/
structure MatchRecord where
  winner_id : String
  p1_id : String
  p2_id : String
  surface : String
  date : ℕ

/-- Date order on records, the key of `sort_values('date')`. -/
def dateLe (a b : MatchRecord) : Prop := a.date ≤ b.date

instance : DecidableRel dateLe := fun a b => Nat.decLe a.date b.date

/-- Strict date order: `a` dated strictly before `b`. -/
def dateLt (a b : MatchRecord) : Prop := a.date < b.date

instance : DecidableRel dateLt := fun a b => Nat.decLt a.date b.date

/-- `matches_df.sort_values('date')`, modelled as a sort of the record list
by date.  The model's concrete sort happens to be stable, whereas pandas'
default `quicksort` is not guaranteed stable, so the model's order on
same-date ties must not be relied on; accordingly no theorem below uses the
tie order — the presentation-order theorem assumes strictly increasing
dates, where every correct sort (stable or not) returns its input. -/
def sortByDate (records : List MatchRecord) : List MatchRecord :=
  List.insertionSort dateLe records

/-- The `for` loop of `process_matches`, carrying the `processed` and
`skipped` counters.  A record whose `winner_id` is neither listed player is
skipped; a valid record is applied with `match_idx = processed`; a `KeyError`
escaping `update_ratings` aborts the whole loop. -/
noncomputable def processLoop (s : TennisEloSystem) :
    List MatchRecord → ℕ → ℕ → Except String (TennisEloSystem × ℕ × ℕ)
  | [], processed, skipped => .ok (s, processed, skipped)
  | r :: rest, processed, skipped =>
    if r.winner_id = r.p1_id then
      match s.update_ratings r.winner_id r.p2_id r.surface r.date processed with
      | .error e => .error e
      | .ok s' => processLoop s' rest (processed + 1) skipped
    else if r.winner_id = r.p2_id then
      match s.update_ratings r.winner_id r.p1_id r.surface r.date processed with
      | .error e => .error e
      | .ok s' => processLoop s' rest (processed + 1) skipped
    else
      processLoop s rest processed (skipped + 1)

/-- `TennisEloSystem.process_matches(matches_df)`: sort the batch by date,
then run the loop.  Returns the final system together with the `processed`
and `skipped` counters. -/
noncomputable def TennisEloSystem.process_matches (s : TennisEloSystem)
    (records : List MatchRecord) : Except String (TennisEloSystem × ℕ × ℕ) :=
  processLoop s (sortByDate records) 0 0

/-! ## Basic lemmas about the store primitives -/

theorem Entry.dimGet_mem {k : String} (e : Entry) (h : k ∈ entryKeys) :
    e.dimGet k = some (e.dimGetD k) := by
  simp only [entryKeys, List.mem_cons, List.not_mem_nil, or_false] at h
  rcases h with h | h | h | h | h | h <;> subst h <;> rfl

theorem Entry.dimGet_not_mem {k : String} (e : Entry) (h : k ∉ entryKeys) :
    e.dimGet k = none := by
  simp only [entryKeys, List.mem_cons, List.not_mem_nil, or_false, not_or] at h
  obtain ⟨h1, h2, h3, h4, h5, h6⟩ := h
  simp [Entry.dimGet, h1, h2, h3, h4, h5, h6]

theorem Entry.dimGet_dimSet_ne {k k' : String} (e : Entry) (v : ℝ) (h : k' ≠ k) :
    (e.dimSet k v).dimGet k' = e.dimGet k' := by
  unfold Entry.dimSet
  split_ifs with h1 h2 h3 h4 h5 h6 <;> subst_vars <;>
    simp_all [Entry.dimGet]

theorem Entry.dimGet_dimSet_same {k : String} (e : Entry) (v : ℝ)
    (h : k ∈ entryKeys) : (e.dimSet k v).dimGet k = some v := by
  simp only [entryKeys, List.mem_cons, List.not_mem_nil, or_false] at h
  rcases h with h | h | h | h | h | h <;> subst h <;> rfl

/-- Case characterization of `access` on a player already in the store. -/
theorem TennisEloSystem.access_present (s : TennisEloSystem) {p : String}
    {e : Entry} (h : s.ratings p = some e) : s.access p = (e, s) := by
  unfold TennisEloSystem.access
  rw [h]

/-- Case characterization of `access` on an unseen player. -/
theorem TennisEloSystem.access_absent (s : TennisEloSystem) {p : String}
    (h : s.ratings p = none) :
    s.access p = (defaultEntry s.initial_rating,
      { s with ratings := fun q =>
          if q = p then some (defaultEntry s.initial_rating) else s.ratings q }) := by
  unfold TennisEloSystem.access
  rw [h]

theorem TennisEloSystem.access_initial_rating (s : TennisEloSystem) (p : String) :
    ((s.access p).2).initial_rating = s.initial_rating := by
  cases h : s.ratings p
  · rw [s.access_absent h]
  · rw [s.access_present h]

theorem TennisEloSystem.access_k_factor (s : TennisEloSystem) (p : String) :
    ((s.access p).2).k_factor = s.k_factor := by
  cases h : s.ratings p
  · rw [s.access_absent h]
  · rw [s.access_present h]

theorem TennisEloSystem.access_match_ratings (s : TennisEloSystem) (p : String) :
    ((s.access p).2).match_ratings = s.match_ratings := by
  cases h : s.ratings p
  · rw [s.access_absent h]
  · rw [s.access_present h]

theorem TennisEloSystem.access_ratings_ne (s : TennisEloSystem) {p : String}
    (q : String) (h : q ≠ p) : ((s.access p).2).ratings q = s.ratings q := by
  cases hr : s.ratings p
  · rw [s.access_absent hr]
    simp [h]
  · rw [s.access_present hr]

theorem TennisEloSystem.access_ratings_self (s : TennisEloSystem) (p : String) :
    ((s.access p).2).ratings p = some (s.peek p) := by
  cases h : s.ratings p
  · rw [TennisEloSystem.peek, s.access_absent h]
    simp
  · rw [TennisEloSystem.peek, s.access_present h, h]

theorem TennisEloSystem.peek_present {s : TennisEloSystem} {q : String}
    {e : Entry} (h : s.ratings q = some e) : s.peek q = e := by
  rw [TennisEloSystem.peek, s.access_present h]

theorem TennisEloSystem.peek_absent {s : TennisEloSystem} {q : String}
    (h : s.ratings q = none) : s.peek q = defaultEntry s.initial_rating := by
  rw [TennisEloSystem.peek, s.access_absent h]

/-- `peek` only depends on the entry stored at `q` and the default rating. -/
theorem TennisEloSystem.peek_congr {s1 s2 : TennisEloSystem} (q : String)
    (hr : s1.ratings q = s2.ratings q)
    (hi : s1.initial_rating = s2.initial_rating) : s1.peek q = s2.peek q := by
  cases h : s2.ratings q with
  | some e => rw [TennisEloSystem.peek_present (hr.trans h), TennisEloSystem.peek_present h]
  | none => rw [TennisEloSystem.peek_absent (hr.trans h), TennisEloSystem.peek_absent h, hi]

theorem TennisEloSystem.peek_access (s : TennisEloSystem) (p q : String) :
    ((s.access p).2).peek q = s.peek q := by
  by_cases hpq : q = p
  · subst hpq
    exact TennisEloSystem.peek_present (s.access_ratings_self q)
  · exact TennisEloSystem.peek_congr q (s.access_ratings_ne q hpq)
      (s.access_initial_rating p)

/-- Case characterization of `addToDim` when the key is present in the
(materialized) entry. -/
theorem TennisEloSystem.addToDim_eq_of_mem (s : TennisEloSystem)
    {p k : String} (d : ℝ) (hk : k ∈ entryKeys) :
    s.addToDim p k d =
      { (s.access p).2 with ratings := fun q =>
          if q = p then some ((s.peek p).dimSet k ((s.peek p).dimGetD k + d))
          else ((s.access p).2).ratings q } := by
  simp only [TennisEloSystem.addToDim]
  rw [show (s.access p).1 = s.peek p from rfl, (s.peek p).dimGet_mem hk]

theorem TennisEloSystem.addToDim_initial_rating (s : TennisEloSystem)
    (p k : String) (d : ℝ) :
    (s.addToDim p k d).initial_rating = s.initial_rating := by
  simp only [TennisEloSystem.addToDim]
  cases h : ((s.access p).1).dimGet k <;> simp [s.access_initial_rating p]

theorem TennisEloSystem.addToDim_k_factor (s : TennisEloSystem)
    (p k : String) (d : ℝ) :
    (s.addToDim p k d).k_factor = s.k_factor := by
  simp only [TennisEloSystem.addToDim]
  cases h : ((s.access p).1).dimGet k <;> simp [s.access_k_factor p]

theorem TennisEloSystem.addToDim_match_ratings (s : TennisEloSystem)
    (p k : String) (d : ℝ) :
    (s.addToDim p k d).match_ratings = s.match_ratings := by
  simp only [TennisEloSystem.addToDim]
  cases h : ((s.access p).1).dimGet k <;> simp [s.access_match_ratings p]

theorem TennisEloSystem.addToDim_ratings_ne (s : TennisEloSystem)
    {p : String} (k q : String) (d : ℝ) (h : q ≠ p) :
    (s.addToDim p k d).ratings q = s.ratings q := by
  simp only [TennisEloSystem.addToDim]
  cases hg : ((s.access p).1).dimGet k <;> simp [h, s.access_ratings_ne q h]

theorem TennisEloSystem.addToDim_ratings_self (s : TennisEloSystem)
    {p k : String} (d : ℝ) (hk : k ∈ entryKeys) :
    (s.addToDim p k d).ratings p =
      some ((s.peek p).dimSet k ((s.peek p).dimGetD k + d)) := by
  rw [s.addToDim_eq_of_mem d hk]
  simp

theorem TennisEloSystem.peek_addToDim_self (s : TennisEloSystem)
    {p k : String} (d : ℝ) (hk : k ∈ entryKeys) :
    (s.addToDim p k d).peek p = (s.peek p).dimSet k ((s.peek p).dimGetD k + d) :=
  TennisEloSystem.peek_present (s.addToDim_ratings_self d hk)

theorem TennisEloSystem.peek_addToDim_ne (s : TennisEloSystem)
    {p : String} (k q : String) (d : ℝ) (h : q ≠ p) :
    (s.addToDim p k d).peek q = s.peek q :=
  TennisEloSystem.peek_congr q (s.addToDim_ratings_ne k q d h)
    (s.addToDim_initial_rating p k d)

theorem TennisEloSystem.ratings_access_access_self (s : TennisEloSystem)
    (p q : String) : (((s.access p).2.access q).2).ratings p = some (s.peek p) := by
  by_cases hpq : p = q
  · subst hpq
    rw [((s.access p).2).access_ratings_self p, s.peek_access p p]
  · rw [((s.access p).2).access_ratings_ne p hpq, s.access_ratings_self p]

/-! ## Characterization of `update_ratings` -/

theorem overall_mem_entryKeys : "overall" ∈ entryKeys := by decide

theorem matches_played_mem_entryKeys : "matches_played" ∈ entryKeys := by decide

/-- The snapshot `update_ratings` appends: the four pre-match ratings read
from the store strictly before any mutation. -/
def preSnap (s : TennisEloSystem) (winner_id loser_id surface : String)
    (date match_idx : ℕ) : MatchSnapshot :=
  { match_idx := match_idx, date := date, surface := surface,
    winner_id := winner_id, loser_id := loser_id,
    winner_elo_overall := (s.peek winner_id).overall,
    loser_elo_overall := (s.peek loser_id).overall,
    winner_elo_surface := (s.peek winner_id).dimGetD surface,
    loser_elo_surface := (s.peek loser_id).dimGetD surface }

/-- The state `update_ratings` produces on its success path: both players
materialized, the pre-match snapshot appended, then the six `+=`/`-=`
mutations in source order. -/
noncomputable def updateResult (s : TennisEloSystem) (w l surf : String)
    (d i : ℕ) : TennisEloSystem :=
  let s2 := ((s.access w).2.access l).2
  let s5 := { s2 with match_ratings := s2.match_ratings ++ [preSnap s w l surf d i] }
  let c1 := s.k_factor * (1 - expected_probability (s.peek w).overall (s.peek l).overall)
  let c2 := s.k_factor *
    (1 - expected_probability ((s.peek w).dimGetD surf) ((s.peek l).dimGetD surf))
  (((((s5.addToDim w "overall" c1).addToDim l "overall" (-c1)).addToDim w surf
      c2).addToDim l surf (-c2)).addToDim w "matches_played" 1).addToDim l
    "matches_played" 1

theorem TennisEloSystem.update_ratings_ok (s : TennisEloSystem)
    (w l surf : String) (d i : ℕ) (hs : surf ∈ entryKeys) :
    s.update_ratings w l surf d i = .ok (updateResult s w l surf d i) := by
  have hww : (((s.access w).2.access l).2).ratings w = some (s.peek w) :=
    s.ratings_access_access_self w l
  have hll : (((s.access w).2.access l).2).ratings l = some (s.peek l) := by
    rw [((s.access w).2).access_ratings_self l, s.peek_access w l]
  have e1 : (((s.access w).2.access l).2).access w =
      (s.peek w, ((s.access w).2.access l).2) :=
    TennisEloSystem.access_present _ hww
  have e2 : (((s.access w).2.access l).2).access l =
      (s.peek l, ((s.access w).2.access l).2) :=
    TennisEloSystem.access_present _ hll
  have e3 : ((s.access w).2.access l).1 = s.peek l := s.peek_access w l
  have e4 : (s.access w).1 = s.peek w := rfl
  have e5 : (((s.access w).2.access l).2).k_factor = s.k_factor := by
    rw [((s.access w).2).access_k_factor l, s.access_k_factor w]
  simp only [TennisEloSystem.update_ratings, updateResult, preSnap, e1, e2, e3, e4, e5,
    Entry.dimGet_mem _ hs, TennisEloSystem.addToDim_k_factor]

theorem TennisEloSystem.update_ratings_err (s : TennisEloSystem)
    (w l surf : String) (d i : ℕ) (hs : surf ∉ entryKeys) :
    s.update_ratings w l surf d i = .error surf := by
  simp only [TennisEloSystem.update_ratings]
  rw [show ((((s.access w).2.access l).2.access w).1).dimGet surf = none from
    Entry.dimGet_not_mem _ hs]

/-- A dimension different from the written key is untouched by `addToDim`,
for every player (including the written one). -/
theorem TennisEloSystem.peek_dimGet_addToDim_ne (s : TennisEloSystem)
    (p k q k' : String) (d : ℝ) (hk : k' ≠ k) :
    ((s.addToDim p k d).peek q).dimGet k' = (s.peek q).dimGet k' := by
  by_cases hqp : q = p
  · subst hqp
    by_cases hmem : k ∈ entryKeys
    · rw [s.peek_addToDim_self d hmem, Entry.dimGet_dimSet_ne _ _ hk]
    · have : s.addToDim q k d = (s.access q).2 := by
        simp only [TennisEloSystem.addToDim]
        rw [show ((s.access q).1).dimGet k = none from Entry.dimGet_not_mem _ hmem]
      rw [this, s.peek_access q q]
  · rw [s.peek_addToDim_ne k q d hqp]

theorem TennisEloSystem.peek_addToDim_absent_key (s : TennisEloSystem)
    (p q k : String) (d : ℝ) (hmem : k ∉ entryKeys) :
    (s.addToDim p k d).peek q = s.peek q := by
  have : s.addToDim p k d = (s.access p).2 := by
    simp only [TennisEloSystem.addToDim]
    rw [show ((s.access p).1).dimGet k = none from Entry.dimGet_not_mem _ hmem]
  rw [this, s.peek_access p q]

/-- Counter bookkeeping of the processing loop: on a successful run, the
final `processed`/`skipped` counters add up to the starting counters plus
the number of records consumed. -/
theorem processLoop_count (records : List MatchRecord) :
    ∀ (s : TennisEloSystem) (p k : ℕ) (s' : TennisEloSystem) (p' k' : ℕ),
      processLoop s records p k = .ok (s', p', k') →
      p' + k' = p + k + records.length := by
  induction records with
  | nil =>
    intro s p k s' p' k' h
    simp only [processLoop, Except.ok.injEq, Prod.mk.injEq] at h
    obtain ⟨-, rfl, rfl⟩ := h
    simp
  | cons r rest ih =>
    intro s p k s' p' k' h
    simp only [processLoop] at h
    by_cases h1 : r.winner_id = r.p1_id
    · rw [if_pos h1] at h
      cases hupd : s.update_ratings r.winner_id r.p2_id r.surface r.date p with
      | error e => rw [hupd] at h; exact absurd h (by simp)
      | ok s2 =>
        rw [hupd] at h
        have := ih s2 (p + 1) k s' p' k' h
        simp only [List.length_cons]
        omega
    · rw [if_neg h1] at h
      by_cases h2 : r.winner_id = r.p2_id
      · rw [if_pos h2] at h
        cases hupd : s.update_ratings r.winner_id r.p1_id r.surface r.date p with
        | error e => rw [hupd] at h; exact absurd h (by simp)
        | ok s2 =>
          rw [hupd] at h
          have := ih s2 (p + 1) k s' p' k' h
          simp only [List.length_cons]
          omega
      · rw [if_neg h2] at h
        have := ih s p (k + 1) s' p' k' h
        simp only [List.length_cons]
        omega

/-! ## The winner's and loser's entries after one update -/

/-- The overall delta of one update, `k_factor * (1 - expected_overall)`. -/
noncomputable def chgOverall (s : TennisEloSystem) (w l : String) : ℝ :=
  s.k_factor * (1 - expected_probability (s.peek w).overall (s.peek l).overall)

/-- The surface delta of one update, `k_factor * (1 - expected_surface)`. -/
noncomputable def chgSurface (s : TennisEloSystem) (w l surf : String) : ℝ :=
  s.k_factor *
    (1 - expected_probability ((s.peek w).dimGetD surf) ((s.peek l).dimGetD surf))

/-- A player's entry after receiving `c1` on `overall`, `c2` on `surf`, and
one more match played, in the engine's mutation order. -/
noncomputable def entryAfter (e : Entry) (surf : String) (c1 c2 : ℝ) : Entry :=
  let e1 := e.dimSet "overall" (e.dimGetD "overall" + c1)
  let e2 := e1.dimSet surf (e1.dimGetD surf + c2)
  e2.dimSet "matches_played" (e2.dimGetD "matches_played" + 1)

theorem peek_structure_log_update (s : TennisEloSystem) (q : String)
    (ms : List MatchSnapshot) :
    ({ s with match_ratings := ms } : TennisEloSystem).peek q = s.peek q :=
  TennisEloSystem.peek_congr q rfl rfl

theorem peek_double_access (s : TennisEloSystem) (p1 p2 q : String) :
    (((s.access p1).2.access p2).2).peek q = s.peek q := by
  rw [((s.access p1).2).peek_access p2 q, s.peek_access p1 q]

theorem updateResult_peek_winner (s : TennisEloSystem) (w l surf : String)
    (d i : ℕ) (hs : surf ∈ entryKeys) (hwl : w ≠ l) :
    (updateResult s w l surf d i).peek w =
      entryAfter (s.peek w) surf (chgOverall s w l) (chgSurface s w l surf) := by
  simp only [updateResult, entryAfter, chgOverall, chgSurface]
  rw [TennisEloSystem.peek_addToDim_ne _ _ _ _ hwl,
    TennisEloSystem.peek_addToDim_self _ _ matches_played_mem_entryKeys,
    TennisEloSystem.peek_addToDim_ne _ _ _ _ hwl,
    TennisEloSystem.peek_addToDim_self _ _ hs,
    TennisEloSystem.peek_addToDim_ne _ _ _ _ hwl,
    TennisEloSystem.peek_addToDim_self _ _ overall_mem_entryKeys,
    peek_structure_log_update, peek_double_access]

theorem updateResult_peek_loser (s : TennisEloSystem) (w l surf : String)
    (d i : ℕ) (hs : surf ∈ entryKeys) (hwl : w ≠ l) :
    (updateResult s w l surf d i).peek l =
      entryAfter (s.peek l) surf (-chgOverall s w l) (-chgSurface s w l surf) := by
  simp only [updateResult, entryAfter, chgOverall, chgSurface]
  rw [TennisEloSystem.peek_addToDim_self _ _ matches_played_mem_entryKeys,
    TennisEloSystem.peek_addToDim_ne _ _ _ _ (Ne.symm hwl),
    TennisEloSystem.peek_addToDim_self _ _ hs,
    TennisEloSystem.peek_addToDim_ne _ _ _ _ (Ne.symm hwl),
    TennisEloSystem.peek_addToDim_self _ _ overall_mem_entryKeys,
    TennisEloSystem.peek_addToDim_ne _ _ _ _ (Ne.symm hwl),
    peek_structure_log_update, peek_double_access]

theorem updateResult_ratings_other (s : TennisEloSystem) {w l : String}
    (q surf : String) (d i : ℕ) (hqw : q ≠ w) (hql : q ≠ l) :
    (updateResult s w l surf d i).ratings q = s.ratings q := by
  simp only [updateResult]
  rw [TennisEloSystem.addToDim_ratings_ne _ _ _ _ hql,
    TennisEloSystem.addToDim_ratings_ne _ _ _ _ hqw,
    TennisEloSystem.addToDim_ratings_ne _ _ _ _ hql,
    TennisEloSystem.addToDim_ratings_ne _ _ _ _ hqw,
    TennisEloSystem.addToDim_ratings_ne _ _ _ _ hql,
    TennisEloSystem.addToDim_ratings_ne _ _ _ _ hqw]
  show (({ ((s.access w).2.access l).2 with
      match_ratings := _ } : TennisEloSystem)).ratings q = s.ratings q
  rw [show ∀ (t : TennisEloSystem) (ms : List MatchSnapshot),
      ({ t with match_ratings := ms } : TennisEloSystem).ratings q = t.ratings q
    from fun t ms => rfl,
    ((s.access w).2).access_ratings_ne q hql, s.access_ratings_ne q hqw]

theorem updateResult_match_ratings (s : TennisEloSystem) (w l surf : String)
    (d i : ℕ) :
    (updateResult s w l surf d i).match_ratings =
      s.match_ratings ++ [preSnap s w l surf d i] := by
  simp only [updateResult]
  rw [TennisEloSystem.addToDim_match_ratings, TennisEloSystem.addToDim_match_ratings,
    TennisEloSystem.addToDim_match_ratings, TennisEloSystem.addToDim_match_ratings,
    TennisEloSystem.addToDim_match_ratings, TennisEloSystem.addToDim_match_ratings]
  show ((s.access w).2.access l).2.match_ratings ++ _ = _
  rw [((s.access w).2).access_match_ratings l, s.access_match_ratings w]

theorem updateResult_initial_rating (s : TennisEloSystem) (w l surf : String)
    (d i : ℕ) :
    (updateResult s w l surf d i).initial_rating = s.initial_rating := by
  simp only [updateResult]
  rw [TennisEloSystem.addToDim_initial_rating, TennisEloSystem.addToDim_initial_rating,
    TennisEloSystem.addToDim_initial_rating, TennisEloSystem.addToDim_initial_rating,
    TennisEloSystem.addToDim_initial_rating, TennisEloSystem.addToDim_initial_rating]
  show ((s.access w).2.access l).2.initial_rating = _
  rw [((s.access w).2).access_initial_rating l, s.access_initial_rating w]

theorem updateResult_k_factor (s : TennisEloSystem) (w l surf : String)
    (d i : ℕ) : (updateResult s w l surf d i).k_factor = s.k_factor := by
  simp only [updateResult]
  rw [TennisEloSystem.addToDim_k_factor, TennisEloSystem.addToDim_k_factor,
    TennisEloSystem.addToDim_k_factor, TennisEloSystem.addToDim_k_factor,
    TennisEloSystem.addToDim_k_factor, TennisEloSystem.addToDim_k_factor]
  show ((s.access w).2.access l).2.k_factor = _
  rw [((s.access w).2).access_k_factor l, s.access_k_factor w]

/-- Success of `update_ratings` forces the surface to be a dict key. -/
theorem TennisEloSystem.surface_mem_of_ok {s s' : TennisEloSystem}
    {w l surf : String} {d i : ℕ}
    (h : s.update_ratings w l surf d i = .ok s') : surf ∈ entryKeys := by
  by_contra hns
  rw [s.update_ratings_err w l surf d i hns] at h
  exact Except.noConfusion h

/-! ## Concrete inputs and result projections used by witnesses -/

/-- An engine with the default configuration of `main()`. -/
def baseSystem : TennisEloSystem := mkSystem 1500 32

/-- A valid Hard-court match, A beats B. -/
def recAB : MatchRecord :=
  { winner_id := "A", p1_id := "A", p2_id := "B", surface := "Hard", date := 0 }

/-- A valid match dated later than `recEarly` but listed before it. -/
def recLate : MatchRecord :=
  { winner_id := "A", p1_id := "A", p2_id := "B", surface := "Hard", date := 1 }

/-- A valid match dated earlier than `recLate`. -/
def recEarly : MatchRecord :=
  { winner_id := "C", p1_id := "C", p2_id := "D", surface := "Clay", date := 0 }

/-- A record whose winner is neither listed player. -/
def recBadWinner : MatchRecord :=
  { winner_id := "X", p1_id := "A", p2_id := "B", surface := "Hard", date := 0 }

/-- A record whose surface string is the dict key `"overall"` — outside the
recognized surface set, yet a key of every per-player dict. -/
def recOverallSurf : MatchRecord :=
  { winner_id := "A", p1_id := "A", p2_id := "B", surface := "overall", date := 0 }

/-- A record whose surface string is not a dict key at all. -/
def recDirt : MatchRecord :=
  { winner_id := "A", p1_id := "A", p2_id := "B", surface := "Dirt", date := 0 }

/-- The snapshot dates of a successful run, in log order. -/
def datesProcessed (r : Except String (TennisEloSystem × ℕ × ℕ)) :
    Option (List ℕ) :=
  match r with
  | .ok (s, _, _) => some (s.match_ratings.map MatchSnapshot.date)
  | .error _ => none

/-- Whether a run completed without a raised error. -/
def resultIsOk (r : Except String (TennisEloSystem × ℕ × ℕ)) : Bool :=
  match r with
  | .ok _ => true
  | .error _ => false

/-! ## Claim C2 -/

/-- C2 is refuted by this input: `process_matches` internally re-sorts the
batch by date (`sort_values('date')`), so a batch presented with dates
`[1, 0]` is processed in date order `[0, 1]`, not in presentation order. -/
theorem process_matches_resorts_counterexample :
    datesProcessed (baseSystem.process_matches [recLate, recEarly]) = some [0, 1] ∧
    [recLate, recEarly].map MatchRecord.date = [1, 0] ∧
    datesProcessed (baseSystem.process_matches [recLate, recEarly]) ≠
      some ([recLate, recEarly].map MatchRecord.date) := by
  have h1 : datesProcessed (baseSystem.process_matches [recLate, recEarly]) =
      some [0, 1] := rfl
  refine ⟨h1, rfl, ?_⟩
  rw [h1, show [recLate, recEarly].map MatchRecord.date = [1, 0] from rfl]
  decide

/-- C2 (amended): `process_matches` re-sorts the batch by date ascending, so
presentation order is in general not preserved; when the input batch is
sorted with strictly increasing dates (hence free of same-date ties), the
engine processes the records exactly in presentation order.  For same-date
ties the code offers no order guarantee — pandas' default quicksort is not
stable — so the spec's tie-break sentence has no counterpart here. -/
theorem process_matches_presorted_presentation_order (s : TennisEloSystem)
    (records : List MatchRecord) (h : List.Sorted dateLt records) :
    s.process_matches records = processLoop s records 0 0 := by
  have hle : List.Sorted dateLe records := h.imp fun hab => Nat.le_of_lt hab
  rw [TennisEloSystem.process_matches, sortByDate, hle.insertionSort_eq]

/-- C2 witness: a concrete batch with strictly increasing dates (0 < 1) is
processed in presentation order. -/
theorem process_matches_presorted_presentation_order_witness :
    baseSystem.process_matches [recEarly, recLate] =
      processLoop baseSystem [recEarly, recLate] 0 0 :=
  process_matches_presorted_presentation_order baseSystem [recEarly, recLate]
    (by simp [List.sorted_cons, dateLt, recEarly, recLate])

/-! ## Claim C3 -/

/-- C3: two runs of `process_matches` on the identical ordered record batch
with the same configuration (initial rating and K-factor fixed at engine
construction) produce identical results: the same final per-player ratings
and the same snapshot log (the whole final state and both counters agree). -/
theorem process_matches_deterministic (i1 k1 i2 k2 : ℝ)
    (r1 r2 : List MatchRecord) (hi : i1 = i2) (hk : k1 = k2) (hr : r1 = r2) :
    (mkSystem i1 k1).process_matches r1 = (mkSystem i2 k2).process_matches r2 := by
  subst hi; subst hk; subst hr; rfl

/-- C3 witness at a concrete batch and the default configuration. -/
theorem process_matches_deterministic_witness :
    (mkSystem 1500 32).process_matches [recAB] =
      (mkSystem 1500 32).process_matches [recAB] :=
  process_matches_deterministic 1500 32 1500 32 [recAB] [recAB] rfl rfl rfl

/-! ## Claim C4 -/

/-- C4 is refuted by this input: the surface string `"overall"` is outside
the recognized surface set `{Hard, Clay, Grass, Carpet}`, yet the engine
update does not halt with an error — the string is a key of the per-player
dict, so the match is silently processed (crediting the surface delta to the
overall rating). -/
theorem unrecognized_surface_not_fatal_counterexample :
    resultIsOk (baseSystem.process_matches [recOverallSurf]) = true ∧
    "overall" ∉ recognizedSurfaces := by
  exact ⟨rfl, by decide⟩

/-- C4 (amended): a surface value that is not a key of the per-player dict
(i.e. outside `{overall, Hard, Clay, Grass, Carpet, matches_played}`)
reaching the engine update raises `KeyError`: the batch loop halts with that
error at the offending record and does not continue past it.  (The two
non-surface dict keys `overall` and `matches_played` are the exception the
counterexample exhibits: they are accepted silently.) -/
theorem unknown_surface_key_fatal (s : TennisEloSystem) (r : MatchRecord)
    (rest : List MatchRecord) (p k : ℕ)
    (hvalid : r.winner_id = r.p1_id ∨ r.winner_id = r.p2_id)
    (hsurf : r.surface ∉ entryKeys) :
    processLoop s (r :: rest) p k = .error r.surface := by
  by_cases h1 : r.winner_id = r.p1_id
  · simp only [processLoop, if_pos h1,
      s.update_ratings_err r.winner_id r.p2_id r.surface r.date p hsurf]
  · have h2 : r.winner_id = r.p2_id := hvalid.resolve_left h1
    simp only [processLoop, if_neg h1, if_pos h2,
      s.update_ratings_err r.winner_id r.p1_id r.surface r.date p hsurf]

/-- C4 witness: a record with surface `"Dirt"` halts the loop with the error
carrying that surface, with further records pending. -/
theorem unknown_surface_key_fatal_witness :
    processLoop baseSystem [recDirt, recAB] 0 0 = .error "Dirt" :=
  unknown_surface_key_fatal baseSystem recDirt [recAB] 0 0 (Or.inl rfl)
    (by decide)

/-! ## Claim C5 -/

/-- C5: a record whose `winner_id` equals neither listed player is skipped —
the system state (all ratings, `matches_played`, and the snapshot log) is
passed through unchanged, the skip counter increases by exactly 1, and the
`processed` counter (the `match_idx` given to subsequent valid matches) is
unaffected; moreover on any successful run the final
valid-match count plus skipped-match count equals the input record count. -/
theorem invalid_winner_skip_accounting :
    (∀ (s : TennisEloSystem) (r : MatchRecord) (rest : List MatchRecord)
      (p k : ℕ), r.winner_id ≠ r.p1_id → r.winner_id ≠ r.p2_id →
      processLoop s (r :: rest) p k = processLoop s rest p (k + 1)) ∧
    (∀ (s s' : TennisEloSystem) (records : List MatchRecord) (p k : ℕ),
      s.process_matches records = .ok (s', p, k) → p + k = records.length) := by
  constructor
  · intro s r rest p k h1 h2
    simp only [processLoop, if_neg h1, if_neg h2]
  · intro s s' records p k h
    rw [TennisEloSystem.process_matches] at h
    have := processLoop_count (sortByDate records) s 0 0 s' p k h
    rw [sortByDate, List.length_insertionSort] at this
    omega

/-- C5 witness: a concrete invalid record is skipped leaving the state and
`processed` untouched, and the counters of the run add up to the batch size. -/
theorem invalid_winner_skip_accounting_witness :
    processLoop baseSystem [recBadWinner] 0 0 =
      processLoop baseSystem [] 0 (0 + 1) ∧
    (0 + 1 : ℕ) = [recBadWinner].length :=
  ⟨invalid_winner_skip_accounting.1 baseSystem recBadWinner [] 0 0
      (by decide) (by decide),
    invalid_winner_skip_accounting.2 baseSystem baseSystem [recBadWinner] 0 1 rfl⟩

/-! ## Claim C8 -/

/-- C8: reading an unseen player from the store materializes that player with
the configured initial rating 1500 on `overall` and on each of the four
surfaces, with `matches_played` still 0; the materialized entry is stored
under the player's id, and any dimension read returns the corresponding
default-entry value. -/
theorem access_unseen_materializes_default (s : TennisEloSystem) (pid : String)
    (hnew : s.ratings pid = none) (hinit : s.initial_rating = 1500) :
    ((s.access pid).1).overall = 1500 ∧ ((s.access pid).1).hard = 1500 ∧
    ((s.access pid).1).clay = 1500 ∧ ((s.access pid).1).grass = 1500 ∧
    ((s.access pid).1).carpet = 1500 ∧ ((s.access pid).1).matches_played = 0 ∧
    ((s.access pid).2).ratings pid = some ((s.access pid).1) ∧
    ∀ k, ((s.access pid).1).dimGet k = (defaultEntry 1500).dimGet k := by
  rw [s.access_absent hnew]
  refine ⟨by rw [hinit]; rfl, by rw [hinit]; rfl, by rw [hinit]; rfl,
    by rw [hinit]; rfl, by rw [hinit]; rfl, rfl, by simp, fun k => by rw [hinit]⟩

/-- C8 witness: the unseen player "Z" of a fresh default engine. -/
theorem access_unseen_materializes_default_witness :
    ((baseSystem.access "Z").1).overall = 1500 ∧
    ((baseSystem.access "Z").1).hard = 1500 ∧
    ((baseSystem.access "Z").1).clay = 1500 ∧
    ((baseSystem.access "Z").1).grass = 1500 ∧
    ((baseSystem.access "Z").1).carpet = 1500 ∧
    ((baseSystem.access "Z").1).matches_played = 0 ∧
    ((baseSystem.access "Z").2).ratings "Z" = some ((baseSystem.access "Z").1) ∧
    ∀ k, ((baseSystem.access "Z").1).dimGet k = (defaultEntry 1500).dimGet k :=
  access_unseen_materializes_default baseSystem "Z" rfl rfl

/-! ## Field computation lemmas for `entryAfter` -/

theorem Entry.dimGetD_dimSet_ne {k k' : String} (e : Entry) (v : ℝ)
    (h : k' ≠ k) : (e.dimSet k v).dimGetD k' = e.dimGetD k' := by
  unfold Entry.dimGetD
  rw [Entry.dimGet_dimSet_ne _ _ h]

theorem Entry.dimGetD_dimSet_same {k : String} (e : Entry) (v : ℝ)
    (h : k ∈ entryKeys) : (e.dimSet k v).dimGetD k = v := by
  unfold Entry.dimGetD
  rw [Entry.dimGet_dimSet_same _ _ h]
  rfl

theorem Entry.dimGetD_overall (e : Entry) : e.dimGetD "overall" = e.overall := by
  simp [Entry.dimGetD, Entry.dimGet]

theorem Entry.dimGetD_matches_played (e : Entry) :
    e.dimGetD "matches_played" = e.matches_played := by
  simp [Entry.dimGetD, Entry.dimGet]

theorem entryAfter_overall (e : Entry) {surf : String} (c1 c2 : ℝ)
    (hso : surf ≠ "overall") :
    (entryAfter e surf c1 c2).overall = e.overall + c1 := by
  have h : (entryAfter e surf c1 c2).dimGetD "overall" =
      e.dimGetD "overall" + c1 := by
    simp only [entryAfter]
    rw [Entry.dimGetD_dimSet_ne _ _ (by decide),
      Entry.dimGetD_dimSet_ne _ _ (Ne.symm hso),
      Entry.dimGetD_dimSet_same _ _ overall_mem_entryKeys]
  simpa only [Entry.dimGetD_overall] using h

theorem entryAfter_matches_played (e : Entry) {surf : String} (c1 c2 : ℝ)
    (hsm : surf ≠ "matches_played") :
    (entryAfter e surf c1 c2).matches_played = e.matches_played + 1 := by
  have h : (entryAfter e surf c1 c2).dimGetD "matches_played" =
      e.dimGetD "matches_played" + 1 := by
    simp only [entryAfter]
    rw [Entry.dimGetD_dimSet_same _ _ matches_played_mem_entryKeys,
      Entry.dimGetD_dimSet_ne _ _ (Ne.symm hsm),
      Entry.dimGetD_dimSet_ne _ _ (by decide)]
  simpa only [Entry.dimGetD_matches_played] using h

theorem entryAfter_dimGetD_surf (e : Entry) {surf : String} (c1 c2 : ℝ)
    (hk : surf ∈ entryKeys) (hso : surf ≠ "overall")
    (hsm : surf ≠ "matches_played") :
    (entryAfter e surf c1 c2).dimGetD surf = e.dimGetD surf + c2 := by
  simp only [entryAfter]
  rw [Entry.dimGetD_dimSet_ne _ _ hsm, Entry.dimGetD_dimSet_same _ _ hk,
    Entry.dimGetD_dimSet_ne _ _ hso]

theorem recognized_sub_entryKeys {k : String} (h : k ∈ recognizedSurfaces) :
    k ∈ entryKeys := by
  fin_cases h <;> decide

theorem recognized_ne_special {k : String} (h : k ∈ recognizedSurfaces) :
    k ≠ "overall" ∧ k ≠ "matches_played" := by
  fin_cases h <;> exact ⟨by decide, by decide⟩

/-! ## Claim C1 -/

/-- C1: on every successful engine update, the snapshot appended to the log
(exactly one, at the end) carries winner/loser overall and winner/loser
surface ratings equal to the Rating Store's values strictly before that
match's deltas are applied — the values `peek`ed from the pre-update state
`s`, never from the mutated state — and the assigned match index. -/
theorem update_ratings_snapshot_pre_match (s s' : TennisEloSystem)
    (w l surf : String) (d i : ℕ)
    (h : s.update_ratings w l surf d i = .ok s') :
    s'.match_ratings = s.match_ratings ++ [preSnap s w l surf d i] ∧
    (preSnap s w l surf d i).winner_elo_overall = (s.peek w).overall ∧
    (preSnap s w l surf d i).loser_elo_overall = (s.peek l).overall ∧
    some (preSnap s w l surf d i).winner_elo_surface = (s.peek w).dimGet surf ∧
    some (preSnap s w l surf d i).loser_elo_surface = (s.peek l).dimGet surf ∧
    (preSnap s w l surf d i).match_idx = i ∧
    (preSnap s w l surf d i).date = d ∧
    (preSnap s w l surf d i).surface = surf := by
  have hs : surf ∈ entryKeys := TennisEloSystem.surface_mem_of_ok h
  rw [s.update_ratings_ok w l surf d i hs] at h
  injection h with h2
  subst h2
  refine ⟨updateResult_match_ratings s w l surf d i, rfl, rfl, ?_, ?_, rfl, rfl, rfl⟩
  · rw [Entry.dimGet_mem _ hs]
    rfl
  · rw [Entry.dimGet_mem _ hs]
    rfl

/-- C1 witness at a concrete update of a fresh engine. -/
theorem update_ratings_snapshot_pre_match_witness :
    (updateResult baseSystem "A" "B" "Hard" 7 0).match_ratings =
      baseSystem.match_ratings ++ [preSnap baseSystem "A" "B" "Hard" 7 0] :=
  (update_ratings_snapshot_pre_match baseSystem _ "A" "B" "Hard" 7 0
    (baseSystem.update_ratings_ok "A" "B" "Hard" 7 0 (by decide))).1

/-! ## Claim C6 -/

/-- C6: zero-sum updates — for a valid match between two distinct players on
a recognized surface, the amount the winner's rating gains on the overall
dimension equals the amount the loser's rating loses there, and likewise on
the match-surface dimension. -/
theorem update_ratings_zero_sum (s s' : TennisEloSystem) (w l surf : String)
    (d i : ℕ) (h : s.update_ratings w l surf d i = .ok s')
    (hsurf : surf ∈ recognizedSurfaces) (hwl : w ≠ l) :
    (s'.peek w).overall - (s.peek w).overall
      = (s.peek l).overall - (s'.peek l).overall ∧
    (s'.peek w).dimGetD surf - (s.peek w).dimGetD surf
      = (s.peek l).dimGetD surf - (s'.peek l).dimGetD surf := by
  have hk : surf ∈ entryKeys := recognized_sub_entryKeys hsurf
  obtain ⟨hso, hsm⟩ := recognized_ne_special hsurf
  rw [s.update_ratings_ok w l surf d i hk] at h
  injection h with h2
  subst h2
  rw [updateResult_peek_winner s w l surf d i hk hwl,
    updateResult_peek_loser s w l surf d i hk hwl]
  constructor
  · rw [entryAfter_overall _ _ _ hso, entryAfter_overall _ _ _ hso]
    ring
  · rw [entryAfter_dimGetD_surf _ _ _ hk hso hsm,
      entryAfter_dimGetD_surf _ _ _ hk hso hsm]
    ring

/-- C6 witness at a concrete update of a fresh engine. -/
theorem update_ratings_zero_sum_witness :
    ((updateResult baseSystem "A" "B" "Hard" 0 0).peek "A").overall -
        (baseSystem.peek "A").overall =
      (baseSystem.peek "B").overall -
        ((updateResult baseSystem "A" "B" "Hard" 0 0).peek "B").overall :=
  (update_ratings_zero_sum baseSystem _ "A" "B" "Hard" 0 0
    (baseSystem.update_ratings_ok "A" "B" "Hard" 0 0 (by decide))
    (by decide) (by decide)).1

/-! ## Claim C10 -/

/-- C10: frame property of one engine update — every player other than the
winner and loser keeps an untouched store entry; the winner's and loser's
ratings on the recognized surfaces other than the match surface are
unchanged; exactly one snapshot is appended to the log; and the
configuration (initial rating, K-factor) is untouched.  (The winner's and
loser's entries themselves may additionally be lazily materialized, which is
why their per-dimension frame is stated through `peek`.) -/
theorem update_ratings_frame (s s' : TennisEloSystem) (w l surf : String)
    (d i : ℕ) (h : s.update_ratings w l surf d i = .ok s') :
    (∀ q, q ≠ w → q ≠ l → s'.ratings q = s.ratings q) ∧
    (∀ k, k ∈ recognizedSurfaces → k ≠ surf →
      (s'.peek w).dimGet k = (s.peek w).dimGet k ∧
      (s'.peek l).dimGet k = (s.peek l).dimGet k) ∧
    (∃ snap, s'.match_ratings = s.match_ratings ++ [snap]) ∧
    s'.initial_rating = s.initial_rating ∧ s'.k_factor = s.k_factor := by
  have hk : surf ∈ entryKeys := TennisEloSystem.surface_mem_of_ok h
  rw [s.update_ratings_ok w l surf d i hk] at h
  injection h with h2
  subst h2
  refine ⟨fun q hqw hql => updateResult_ratings_other s q surf d i hqw hql,
    fun k hkr hks => ?_,
    ⟨preSnap s w l surf d i, updateResult_match_ratings s w l surf d i⟩,
    updateResult_initial_rating s w l surf d i,
    updateResult_k_factor s w l surf d i⟩
  obtain ⟨hko, hkm⟩ := recognized_ne_special hkr
  constructor
  · simp only [updateResult]
    rw [TennisEloSystem.peek_dimGet_addToDim_ne _ _ _ _ _ _ hkm,
      TennisEloSystem.peek_dimGet_addToDim_ne _ _ _ _ _ _ hkm,
      TennisEloSystem.peek_dimGet_addToDim_ne _ _ _ _ _ _ hks,
      TennisEloSystem.peek_dimGet_addToDim_ne _ _ _ _ _ _ hks,
      TennisEloSystem.peek_dimGet_addToDim_ne _ _ _ _ _ _ hko,
      TennisEloSystem.peek_dimGet_addToDim_ne _ _ _ _ _ _ hko,
      peek_structure_log_update, peek_double_access]
  · simp only [updateResult]
    rw [TennisEloSystem.peek_dimGet_addToDim_ne _ _ _ _ _ _ hkm,
      TennisEloSystem.peek_dimGet_addToDim_ne _ _ _ _ _ _ hkm,
      TennisEloSystem.peek_dimGet_addToDim_ne _ _ _ _ _ _ hks,
      TennisEloSystem.peek_dimGet_addToDim_ne _ _ _ _ _ _ hks,
      TennisEloSystem.peek_dimGet_addToDim_ne _ _ _ _ _ _ hko,
      TennisEloSystem.peek_dimGet_addToDim_ne _ _ _ _ _ _ hko,
      peek_structure_log_update, peek_double_access]

/-- C10 witness: a third player's entry is untouched by a concrete update. -/
theorem update_ratings_frame_witness :
    (updateResult baseSystem "A" "B" "Hard" 0 0).ratings "C" =
      baseSystem.ratings "C" :=
  (update_ratings_frame baseSystem _ "A" "B" "Hard" 0 0
    (baseSystem.update_ratings_ok "A" "B" "Hard" 0 0 (by decide))).1 "C"
    (by decide) (by decide)

/-! ## Claim C7 -/

/-- C7: Scenario A — starting from an empty store with initial rating 1500
and K = 32, one valid Hard match between unseen players A and B with A the
winner ends with A.overall = 1516, B.overall = 1484, A.Hard = 1516,
B.Hard = 1484, matches_played = 1 for both, and A's Clay, Grass, Carpet
ratings still 1500. -/
theorem scenario_single_match_values :
    (baseSystem.process_matches [recAB]).map
        (fun x => ((x.1.peek "A").overall, (x.1.peek "B").overall,
          (x.1.peek "A").hard, (x.1.peek "B").hard,
          (x.1.peek "A").matches_played, (x.1.peek "B").matches_played,
          (x.1.peek "A").clay, (x.1.peek "A").grass, (x.1.peek "A").carpet)) =
      .ok (1516, 1484, 1516, 1484, 1, 1, 1500, 1500, 1500) := by
  have hstep : baseSystem.update_ratings "A" "B" "Hard" 0 0 =
      .ok (updateResult baseSystem "A" "B" "Hard" 0 0) :=
    baseSystem.update_ratings_ok "A" "B" "Hard" 0 0 (by decide)
  have hrun : baseSystem.process_matches [recAB] =
      .ok (updateResult baseSystem "A" "B" "Hard" 0 0, 1, 0) := by
    rw [TennisEloSystem.process_matches,
      show sortByDate [recAB] = [recAB] from rfl]
    simp [processLoop, recAB, hstep]
  have hpA : baseSystem.peek "A" = defaultEntry 1500 :=
    TennisEloSystem.peek_absent rfl
  have hpB : baseSystem.peek "B" = defaultEntry 1500 :=
    TennisEloSystem.peek_absent rfl
  have hexp : expected_probability 1500 1500 = 1 / 2 := by
    unfold expected_probability
    rw [show ((1500 : ℝ) - 1500) / 400 = 0 by norm_num, Real.rpow_zero]
    norm_num
  have hc1 : chgOverall baseSystem "A" "B" = 16 := by
    rw [chgOverall, hpA, hpB]
    show (32 : ℝ) * (1 - expected_probability 1500 1500) = 16
    rw [hexp]
    norm_num
  have hc2 : chgSurface baseSystem "A" "B" "Hard" = 16 := by
    rw [chgSurface, hpA, hpB]
    show (32 : ℝ) * (1 - expected_probability ((defaultEntry 1500).dimGetD "Hard")
      ((defaultEntry 1500).dimGetD "Hard")) = 16
    rw [show (defaultEntry 1500).dimGetD "Hard" = 1500 by
      simp [defaultEntry, Entry.dimGetD, Entry.dimGet], hexp]
    norm_num
  have hA : (updateResult baseSystem "A" "B" "Hard" 0 0).peek "A" =
      entryAfter (defaultEntry 1500) "Hard" 16 16 := by
    rw [updateResult_peek_winner baseSystem "A" "B" "Hard" 0 0 (by decide)
      (by decide), hpA, hc1, hc2]
  have hB : (updateResult baseSystem "A" "B" "Hard" 0 0).peek "B" =
      entryAfter (defaultEntry 1500) "Hard" (-16) (-16) := by
    rw [updateResult_peek_loser baseSystem "A" "B" "Hard" 0 0 (by decide)
      (by decide), hpB, hc1, hc2]
  rw [hrun]
  simp only [Except.map, hA, hB]
  simp [entryAfter, Entry.dimSet, Entry.dimGetD, Entry.dimGet, defaultEntry]
  norm_num

/-! ## Claim C9 -/

/-- C9: the expected-score function is symmetric — for all ratings `Ra`,
`Rb`, `expected_probability Ra Rb + expected_probability Rb Ra = 1` (exactly,
in the real-number model of float arithmetic). -/
theorem expected_probability_symmetry (ra rb : ℝ) :
    expected_probability ra rb + expected_probability rb ra = 1 := by
  unfold expected_probability
  have h1 : (0 : ℝ) < (10 : ℝ) ^ ((rb - ra) / 400) :=
    Real.rpow_pos_of_pos (by norm_num) _
  have he : ((ra - rb) / 400 : ℝ) = -((rb - ra) / 400) := by ring
  rw [he, Real.rpow_neg (by norm_num)]
  have h2 : (1 : ℝ) + (10 : ℝ) ^ ((rb - ra) / 400) ≠ 0 := by positivity
  have h3 : ((10 : ℝ) ^ ((rb - ra) / 400))⁻¹ ≠ 0 := by positivity
  field_simp
  ring

end TennisElo
